import Mathlib

/-!
Verification development for the KPI2KVI chat frontend's streaming core
(`handleSendMessage` in the main App component).  The event-processing
switch, the SSE line loop, the chunk loop, the catch block and the
send guard are embedded as pure Lean functions over an explicit state.
-/

namespace KPI2KVI

/-- The `sender` field of a `Message` (`'user' | 'ai'` in the source). -/
inductive Sender where
  | user
  | ai
deriving DecidableEq, Repr

/-- The `Message` interface of the source: `id`, `text`, `sender`. -/
structure Message where
  id : String
  text : String
  sender : Sender
deriving DecidableEq, Repr

/-- The typed SSE events the switch in `handleSendMessage` dispatches on.
Fields that the source reads with a JS truthiness check (`session_id`,
transition `message`, error `message`) are `Option String`; a JS `undefined`
or missing field is `none`. -/
inductive Event where
  | connected (session_id : Option String)
  | status (message : String)
  | content (delta : String)
  | agent_complete (agent : String)
  | transition (from_agent to_agent : String) (message : Option String)
  | complete
  | done
  | error (message : Option String)
deriving DecidableEq, Repr

/-- Values captured by the `handleSendMessage` closure for the whole turn:
`aiMsgId = (Date.now() + 1).toString()` and the React `sessionId` value at
the time the closure was created.  `setSessionId` does not change the
captured `sessionAtStart` during the turn. -/
structure TurnCtx where
  aiMsgId : String
  sessionAtStart : Option String
deriving DecidableEq, Repr

/-- The mutable state the turn reads and writes: the Conversation Store
(`messages`), the typing flag (`isTyping`), the live React `sessionId`
cell, and the three turn-local accumulation variables of the closure
(`completeResponse`, `currentAgentContent`, `aiMessageAdded`). -/
structure TurnSt where
  messages : List Message
  isTyping : Bool
  sessionId : Option String
  completeResponse : String
  currentAgentContent : String
  aiMessageAdded : Bool
deriving DecidableEq, Repr

/-- JS truthiness of a `string | null | undefined` value: `null`/`undefined`
and the empty string are falsy. -/
def truthy : Option String → Bool
  | none => false
  | some s => s ≠ ""

/-- The fallback `eventData.message || 'An error occurred during processing.'`
of the error branch. -/
def errorText : Option String → String
  | none => "An error occurred during processing."
  | some m => if m = "" then "An error occurred during processing." else m

/-- The generic text of the `Message` built in the catch block. -/
def connectErrorText : String :=
  "Sorry, I encountered an error connecting to the backend. Please check the console for details."

/-- The commit step inlined in the `agent_complete`, `transition` and
`complete` branches: if no ai `Message` was added yet, push
`{ id: aiMsgId, text: completeResponse, sender: 'ai' }` and set
`aiMessageAdded`; otherwise map over the list updating the `text` of the
message whose `id` is `aiMsgId`. -/
def commit (ctx : TurnCtx) (s : TurnSt) : TurnSt :=
  if s.aiMessageAdded then
    { s with messages :=
        s.messages.map fun m =>
          if m.id = ctx.aiMsgId then { m with text := s.completeResponse } else m }
  else
    { s with
        messages := s.messages ++ [⟨ctx.aiMsgId, s.completeResponse, Sender.ai⟩],
        aiMessageAdded := true }

/-- The body of `switch (eventData.type)` in `handleSendMessage`, one typed
event at a time.  Each branch is a direct transcription of the source:

* `connected`: `if (!sessionId && eventData.session_id) setSessionId(...)`,
  where `sessionId` is the closure-captured value `ctx.sessionAtStart`;
* `status`: `setIsTyping(true)`;
* `content`: `currentAgentContent += eventData.delta` (not committed);
* `agent_complete`: `completeResponse += currentAgentContent`, commit,
  then `currentAgentContent = ''`;
* `transition`: `if (eventData.message) { completeResponse += eventData.message;` commit `}`;
* `complete`: `if (currentAgentContent) { completeResponse += currentAgentContent;` commit `}`
  then `setIsTyping(false)` — note the source does not clear
  `currentAgentContent` here;
* `done`: `setIsTyping(false)`;
* `error`: `if (!aiMessageAdded)` push a message with text
  `eventData.message || fallback` (the source does not set `aiMessageAdded`),
  then `setIsTyping(false)`. -/
def processEvent (ctx : TurnCtx) (s : TurnSt) : Event → TurnSt
  | .connected sid =>
      if !(truthy ctx.sessionAtStart) && truthy sid then { s with sessionId := sid } else s
  | .status _ => { s with isTyping := true }
  | .content delta => { s with currentAgentContent := s.currentAgentContent ++ delta }
  | .agent_complete _ =>
      let s1 := commit ctx { s with completeResponse := s.completeResponse ++ s.currentAgentContent }
      { s1 with currentAgentContent := "" }
  | .transition _ _ msg =>
      match msg with
      | some m =>
          if m ≠ "" then commit ctx { s with completeResponse := s.completeResponse ++ m } else s
      | none => s
  | .complete =>
      let s1 :=
        if s.currentAgentContent ≠ "" then
          commit ctx { s with completeResponse := s.completeResponse ++ s.currentAgentContent }
        else s
      { s1 with isTyping := false }
  | .done => { s with isTyping := false }
  | .error msg =>
      let s1 :=
        if !s.aiMessageAdded then
          { s with messages := s.messages ++ [⟨ctx.aiMsgId, errorText msg, Sender.ai⟩] }
        else s
      { s1 with isTyping := false }

/-- Left-to-right processing of a list of typed events. -/
def processEvents (ctx : TurnCtx) (s : TurnSt) : List Event → TurnSt
  | [] => s
  | e :: es => processEvents ctx (processEvent ctx s e) es

/-- The end-of-stream branch of the read loop:
`if (done) { setIsTyping(false); break; }`. -/
def finishStream (s : TurnSt) : TurnSt :=
  { s with isTyping := false }

/-- The catch block of `handleSendMessage`: build the generic error message
with `id = aiMsgId`, push it if `aiMessageAdded` is false, otherwise replace
the message whose `id` is `aiMsgId` wholesale; clear the typing flag. -/
def handleCatch (ctx : TurnCtx) (s : TurnSt) : TurnSt :=
  let errorMsg : Message := ⟨ctx.aiMsgId, connectErrorText, Sender.ai⟩
  let s1 :=
    if !s.aiMessageAdded then
      { s with messages := s.messages ++ [errorMsg] }
    else
      { s with messages := s.messages.map fun m => if m.id = ctx.aiMsgId then errorMsg else m }
  { s1 with isTyping := false }

/-- The six characters of the SSE data marker `data: `. -/
def dataMarker : List Char := "data: ".data

/-- The test `line.startsWith('data: ')`, over the character list of the
line. -/
def startsWithData (line : String) : Bool :=
  line.data.take 6 = dataMarker

/-- The payload extraction `line.slice(6)`, over the character list of the
line. -/
def slice6 (line : String) : String :=
  (line.data.drop 6).asString

/-- The inner line loop: lines carrying the `data: ` marker have their first
six characters stripped (`line.slice(6)`) and are parsed and dispatched;
parsing is abstracted as `p : String → Option Event`, where `none` covers
both a `JSON.parse` throw (caught and logged by the source) and a payload
whose `type` matches no case of the switch — in both situations the source
leaves all state untouched and continues with the next line. -/
def processLine (p : String → Option Event) (ctx : TurnCtx) (s : TurnSt) (line : String) :
    TurnSt :=
  if startsWithData line then
    match p (slice6 line) with
    | some e => processEvent ctx s e
    | none => s
  else s

/-- Processing of a list of extracted lines. -/
def processLines (p : String → Option Event) (ctx : TurnCtx) (s : TurnSt) :
    List String → TurnSt
  | [] => s
  | l :: ls => processLines p ctx (processLine p ctx s l) ls

/-- The split of a character list on the line-feed character, with the
semantics of JS `split('\n')`: `"" ↦ [""]`, a trailing line feed yields a
trailing empty piece. -/
def splitOnNl : List Char → List (List Char)
  | [] => [[]]
  | c :: rest =>
      match splitOnNl rest with
      | [] => [[]]
      | l :: ls => if c = '\n' then [] :: l :: ls else (c :: l) :: ls

/-- The statement `chunk.split('\n')` of the read loop. -/
def jsSplitNl (chunk : String) : List String :=
  (splitOnNl chunk.data).map List.asString

/-- One iteration of the read loop on a decoded chunk:
`const lines = chunk.split('\n')` followed by the line loop.  Every piece of
the split is processed immediately; the source keeps no remainder between
chunks. -/
def processChunk (p : String → Option Event) (ctx : TurnCtx) (s : TurnSt) (chunk : String) :
    TurnSt :=
  processLines p ctx s (jsSplitNl chunk)

/-- The read loop over the successive decoded chunks of the response body. -/
def processChunks (p : String → Option Event) (ctx : TurnCtx) (s : TurnSt) :
    List String → TurnSt
  | [] => s
  | c :: cs => processChunks p ctx (processChunk p ctx s c) cs

/-- Modelled from the spec: the Transport Reader the specification describes,
which is absent from the source — it retains the trailing partial line of
each chunk in a buffer and prepends it to the next chunk, so only complete
lines are processed; an unterminated trailing line at end-of-stream is
discarded. Used solely to compare against `processChunks`. -/
def processChunksBuffered (p : String → Option Event) (ctx : TurnCtx) (s : TurnSt)
    (buf : String) : List String → TurnSt
  | [] => s
  | c :: cs =>
      let pieces := jsSplitNl (buf ++ c)
      processChunksBuffered p ctx (processLines p ctx s pieces.dropLast)
        (pieces.getLastD "") cs

/-- The turn-local state at the moment the read loop starts: store contents
`ms0` (the previous messages plus the just-pushed user message), typing set,
live session cell equal to the captured one, empty accumulators. -/
def initTurn (ctx : TurnCtx) (ms0 : List Message) : TurnSt :=
  { messages := ms0
    isTyping := true
    sessionId := ctx.sessionAtStart
    completeResponse := ""
    currentAgentContent := ""
    aiMessageAdded := false }

/-- The App-level state `handleSendMessage` touches before the request is
issued. -/
structure AppState where
  hasStarted : Bool
  inputValue : String
  messages : List Message
  isTyping : Bool
  sessionId : Option String
deriving DecidableEq, Repr

/-- The body of the POST request: `{ message: messageText, session_id: sessionId }`. -/
structure TurnRequest where
  message : String
  session_id : Option String
deriving DecidableEq, Repr

/-- Whitespace as removed by JS `String.prototype.trim` (the ASCII
fragment: space, tab, line feed, carriage return, vertical tab, form
feed). -/
def isJsWs (c : Char) : Bool :=
  c = ' ' || c = '\t' || c = '\n' || c = '\r' || c = '\x0b' || c = '\x0c'

/-- The call `inputValue.trim()`: strip leading and trailing whitespace. -/
def jsTrim (s : String) : String :=
  ((s.data.dropWhile isJsWs).reverse.dropWhile isJsWs).reverse.asString

/-- The synchronous head of `handleSendMessage` (identical in both App
variants of the repository): `if (!inputValue.trim()) return;`, then push the
user message (with `id = Date.now().toString()`, modelled by the `now`
argument), clear the input, set `hasStarted` and `isTyping`, and issue the
request. Returns the updated state and the request, or `none` when the
guard fires. -/
def handleSendMessage (now : String) (st : AppState) : AppState × Option TurnRequest :=
  if jsTrim st.inputValue = "" then (st, none)
  else
    ({ st with
        messages := st.messages ++ [⟨now, st.inputValue, Sender.user⟩]
        inputValue := ""
        hasStarted := true
        isTyping := true },
     some ⟨st.inputValue, st.sessionId⟩)

/-! ### Derived predicates over event streams -/

/-- Whether processing event `e` in state `s` reaches one of the three
inlined commit sites: `agent_complete` always commits, `transition` commits
when it carries a truthy `message`, `complete` commits when
`currentAgentContent` is non-empty. -/
def isCommitTrig (s : TurnSt) : Event → Bool
  | .agent_complete _ => true
  | .transition _ _ (some m) => m ≠ ""
  | .complete => s.currentAgentContent ≠ ""
  | _ => false

/-- Whether an event is an `error` event. -/
def isError : Event → Bool
  | .error _ => true
  | _ => false

/-- Whether the stream contains an `error` event processed while
`aiMessageAdded` is still false (i.e. before the first commit). -/
def errBeforeCommit (ctx : TurnCtx) (s : TurnSt) : List Event → Bool
  | [] => false
  | e :: es => (isError e && !s.aiMessageAdded) || errBeforeCommit ctx (processEvent ctx s e) es

/-- Whether the stream contains at least one commit-triggering event
(relative to the state it is processed in). -/
def hasCommitTrig (ctx : TurnCtx) (s : TurnSt) : List Event → Bool
  | [] => false
  | e :: es => isCommitTrig s e || hasCommitTrig ctx (processEvent ctx s e) es

/-- The initial store contains no message whose id collides with the fresh
`aiMsgId` of the turn. -/
def Clean (ctx : TurnCtx) (ms : List Message) : Prop :=
  ∀ m ∈ ms, m.id ≠ ctx.aiMsgId

/-- The single-message invariant: either the turn has committed and the
store is the initial store plus exactly one ai message carrying `aiMsgId`
and the current `completeResponse`, or it has not and the store is
untouched. -/
def Inv (ctx : TurnCtx) (ms0 : List Message) (s : TurnSt) : Prop :=
  (s.aiMessageAdded = true ∧
    s.messages = ms0 ++ [⟨ctx.aiMsgId, s.completeResponse, Sender.ai⟩])
  ∨ (s.aiMessageAdded = false ∧ s.messages = ms0)

/-- When the flag is set, some ai message with the turn's id is in the store. -/
def HasAi (ctx : TurnCtx) (s : TurnSt) : Prop :=
  s.aiMessageAdded = true →
    ∃ m ∈ s.messages, m.id = ctx.aiMsgId ∧ m.sender = Sender.ai

/-! ### Helper lemmas -/

lemma map_update_clean (ctx : TurnCtx) {ms0 : List Message} (h : Clean ctx ms0)
    (f : Message → Message) :
    ms0.map (fun m => if m.id = ctx.aiMsgId then f m else m) = ms0 := by
  induction ms0 with
  | nil => rfl
  | cons a t ih =>
      have ha : a.id ≠ ctx.aiMsgId := h a (List.mem_cons_self a t)
      have ht : Clean ctx t := fun m hm => h m (List.mem_cons_of_mem a hm)
      simp only [List.map_cons, if_neg ha, ih ht]

@[simp] lemma commit_aiMessageAdded (ctx : TurnCtx) (s : TurnSt) :
    (commit ctx s).aiMessageAdded = true := by
  unfold commit; split <;> simp_all

@[simp] lemma commit_completeResponse (ctx : TurnCtx) (s : TurnSt) :
    (commit ctx s).completeResponse = s.completeResponse := by
  unfold commit; split <;> rfl

@[simp] lemma commit_currentAgentContent (ctx : TurnCtx) (s : TurnSt) :
    (commit ctx s).currentAgentContent = s.currentAgentContent := by
  unfold commit; split <;> rfl

@[simp] lemma commit_isTyping (ctx : TurnCtx) (s : TurnSt) :
    (commit ctx s).isTyping = s.isTyping := by
  unfold commit; split <;> rfl

@[simp] lemma commit_sessionId (ctx : TurnCtx) (s : TurnSt) :
    (commit ctx s).sessionId = s.sessionId := by
  unfold commit; split <;> rfl

lemma commit_messages_not_added (ctx : TurnCtx) (s : TurnSt)
    (hf : s.aiMessageAdded = false) :
    (commit ctx s).messages =
      s.messages ++ [⟨ctx.aiMsgId, s.completeResponse, Sender.ai⟩] := by
  unfold commit; rw [if_neg (by simp [hf])]

lemma commit_messages_added (ctx : TurnCtx) {ms0 : List Message} (h : Clean ctx ms0)
    (s : TurnSt) (t : String) (hf : s.aiMessageAdded = true)
    (hm : s.messages = ms0 ++ [⟨ctx.aiMsgId, t, Sender.ai⟩]) :
    (commit ctx s).messages =
      ms0 ++ [⟨ctx.aiMsgId, s.completeResponse, Sender.ai⟩] := by
  unfold commit
  rw [if_pos (by simp [hf])]
  simp [hm, List.map_append, map_update_clean ctx h]

lemma commit_inv (ctx : TurnCtx) {ms0 : List Message} (h : Clean ctx ms0)
    (s : TurnSt) (hinv : Inv ctx ms0 s) :
    (commit ctx s).messages =
      ms0 ++ [⟨ctx.aiMsgId, s.completeResponse, Sender.ai⟩] := by
  rcases hinv with ⟨hf, hm⟩ | ⟨hf, hm⟩
  · exact commit_messages_added ctx h s s.completeResponse hf hm
  · rw [commit_messages_not_added ctx s hf, hm]

/-- A concrete turn context for the concrete scenarios: fresh message id,
no session bound at turn start. -/
def ctx0 : TurnCtx := ⟨"ai1", none⟩

/-- A concrete turn context whose session was already bound when the turn
started. -/
def ctx1 : TurnCtx := ⟨"ai1", some "s0"⟩

/-- A concrete parse function, consistent with `JSON.parse` plus the type
switch on the frames it is applied to: the complete payload `E2` parses to
an `agent_complete` event, while its truncation `E` (like any other
fragment) fails to parse. -/
def pdemo : String → Option Event :=
  fun str => if str = "E2" then some (Event.agent_complete "x") else none

/-! ### Branch equations for `processEvent` -/

lemma processEvent_connected_eq (ctx : TurnCtx) (s : TurnSt) (sid : Option String) :
    processEvent ctx s (Event.connected sid)
      = if !(truthy ctx.sessionAtStart) && truthy sid then { s with sessionId := sid }
        else s := rfl

lemma processEvent_agent_complete_eq (ctx : TurnCtx) (s : TurnSt) (a : String) :
    processEvent ctx s (Event.agent_complete a)
      = { commit ctx { s with completeResponse := s.completeResponse ++ s.currentAgentContent }
          with currentAgentContent := "" } := rfl

lemma processEvent_transition_commit (ctx : TurnCtx) (s : TurnSt) (f t m : String)
    (hm : m ≠ "") :
    processEvent ctx s (Event.transition f t (some m))
      = commit ctx { s with completeResponse := s.completeResponse ++ m } := by
  simp [processEvent, hm]

lemma processEvent_transition_empty (ctx : TurnCtx) (s : TurnSt) (f t : String) :
    processEvent ctx s (Event.transition f t (some "")) = s := by
  simp [processEvent]

lemma processEvent_transition_none (ctx : TurnCtx) (s : TurnSt) (f t : String) :
    processEvent ctx s (Event.transition f t none) = s := rfl

lemma processEvent_complete_flush (ctx : TurnCtx) (s : TurnSt)
    (hc : s.currentAgentContent ≠ "") :
    processEvent ctx s Event.complete
      = { commit ctx { s with completeResponse := s.completeResponse ++ s.currentAgentContent }
          with isTyping := false } := by
  simp [processEvent, hc]

lemma processEvent_complete_skip (ctx : TurnCtx) (s : TurnSt)
    (hc : s.currentAgentContent = "") :
    processEvent ctx s Event.complete = { s with isTyping := false } := by
  simp [processEvent, hc]

lemma processEvent_error_added (ctx : TurnCtx) (s : TurnSt) (m : Option String)
    (hf : s.aiMessageAdded = true) :
    processEvent ctx s (Event.error m) = { s with isTyping := false } := by
  simp [processEvent, hf]

lemma processEvent_error_not_added (ctx : TurnCtx) (s : TurnSt) (m : Option String)
    (hf : s.aiMessageAdded = false) :
    processEvent ctx s (Event.error m)
      = { s with messages := s.messages ++ [⟨ctx.aiMsgId, errorText m, Sender.ai⟩],
                 isTyping := false } := by
  simp [processEvent, hf]

/-! ### Invariant preservation -/

lemma inv_of_fields (ctx : TurnCtx) (ms0 : List Message) (s s' : TurnSt)
    (hinv : Inv ctx ms0 s) (hflag : s'.aiMessageAdded = s.aiMessageAdded)
    (hmsg : s'.messages = s.messages) (hcr : s'.completeResponse = s.completeResponse) :
    Inv ctx ms0 s' := by
  unfold Inv at hinv ⊢
  rw [hflag, hmsg, hcr]
  exact hinv

lemma commit_extend (ctx : TurnCtx) {ms0 : List Message} (h : Clean ctx ms0)
    (s : TurnSt) (extra : String) (hinv : Inv ctx ms0 s) :
    (commit ctx { s with completeResponse := s.completeResponse ++ extra }).messages
      = ms0 ++ [⟨ctx.aiMsgId,
          (commit ctx { s with completeResponse := s.completeResponse ++ extra }).completeResponse,
          Sender.ai⟩] := by
  rw [commit_completeResponse]
  rcases hinv with ⟨hf, hm⟩ | ⟨hf, hm⟩
  · exact commit_messages_added ctx h
      { s with completeResponse := s.completeResponse ++ extra } s.completeResponse hf hm
  · rw [commit_messages_not_added ctx
      { s with completeResponse := s.completeResponse ++ extra } hf]
    exact congrArg (· ++ _) hm

lemma inv_commit_extend (ctx : TurnCtx) {ms0 : List Message} (h : Clean ctx ms0)
    (s : TurnSt) (extra : String) (hinv : Inv ctx ms0 s) :
    Inv ctx ms0 (commit ctx { s with completeResponse := s.completeResponse ++ extra }) :=
  Or.inl ⟨commit_aiMessageAdded ctx _, commit_extend ctx h s extra hinv⟩

/-- Each event preserves the single-message invariant, provided an error
event is not processed while `aiMessageAdded` is still false. -/
lemma processEvent_inv (ctx : TurnCtx) {ms0 : List Message} (h : Clean ctx ms0)
    (s : TurnSt) (e : Event) (hinv : Inv ctx ms0 s)
    (he : (isError e && !s.aiMessageAdded) = false) :
    Inv ctx ms0 (processEvent ctx s e) := by
  cases e with
  | connected sid =>
      rw [processEvent_connected_eq]
      cases hb : (!(truthy ctx.sessionAtStart) && truthy sid) with
      | true => rw [if_pos rfl]; exact inv_of_fields ctx ms0 s _ hinv rfl rfl rfl
      | false => rw [if_neg (by simp)]; exact hinv
  | status m => exact inv_of_fields ctx ms0 s _ hinv rfl rfl rfl
  | content d => exact inv_of_fields ctx ms0 s _ hinv rfl rfl rfl
  | agent_complete a =>
      rw [processEvent_agent_complete_eq]
      exact inv_of_fields ctx ms0 _ _ (inv_commit_extend ctx h s _ hinv) rfl rfl rfl
  | transition f t msg =>
      cases msg with
      | none => rw [processEvent_transition_none]; exact hinv
      | some m =>
          by_cases hm : m = ""
          · rw [hm, processEvent_transition_empty]; exact hinv
          · rw [processEvent_transition_commit ctx s f t m hm]
            exact inv_commit_extend ctx h s m hinv
  | complete =>
      by_cases hc : s.currentAgentContent = ""
      · rw [processEvent_complete_skip ctx s hc]
        exact inv_of_fields ctx ms0 s _ hinv rfl rfl rfl
      · rw [processEvent_complete_flush ctx s hc]
        exact inv_of_fields ctx ms0 _ _ (inv_commit_extend ctx h s _ hinv) rfl rfl rfl
  | done => exact inv_of_fields ctx ms0 s _ hinv rfl rfl rfl
  | error m =>
      have hf : s.aiMessageAdded = true := by simpa [isError] using he
      rw [processEvent_error_added ctx s m hf]
      exact inv_of_fields ctx ms0 s _ hinv rfl rfl rfl

/-- The invariant holds after processing a whole stream with no error
event before the first commit. -/
lemma processEvents_inv (ctx : TurnCtx) {ms0 : List Message} (h : Clean ctx ms0) :
    ∀ (es : List Event) (s : TurnSt), Inv ctx ms0 s →
      errBeforeCommit ctx s es = false → Inv ctx ms0 (processEvents ctx s es)
  | [], _, hinv, _ => hinv
  | e :: es, s, hinv, herr => by
      rw [errBeforeCommit, Bool.or_eq_false_iff] at herr
      exact processEvents_inv ctx h es _ (processEvent_inv ctx h s e hinv herr.1) herr.2

/-! ### The commit flag over a stream -/

/-- The `aiMessageAdded` flag after one event: it is set exactly when the
event reaches a commit site. -/
lemma processEvent_flag (ctx : TurnCtx) (s : TurnSt) (e : Event) :
    (processEvent ctx s e).aiMessageAdded = (s.aiMessageAdded || isCommitTrig s e) := by
  cases e with
  | connected sid =>
      rw [processEvent_connected_eq]
      cases hb : (!(truthy ctx.sessionAtStart) && truthy sid) with
      | true => rw [if_pos rfl]; simp [isCommitTrig]
      | false => rw [if_neg (by simp)]; simp [isCommitTrig]
  | status m => simp [processEvent, isCommitTrig]
  | content d => simp [processEvent, isCommitTrig]
  | agent_complete a =>
      rw [processEvent_agent_complete_eq]
      simp [isCommitTrig, commit_aiMessageAdded]
  | transition f t msg =>
      cases msg with
      | none => rw [processEvent_transition_none]; simp [isCommitTrig]
      | some m =>
          by_cases hm : m = ""
          · rw [hm, processEvent_transition_empty]; simp [isCommitTrig]
          · rw [processEvent_transition_commit ctx s f t m hm]
            simp [isCommitTrig, hm, commit_aiMessageAdded]
  | complete =>
      by_cases hc : s.currentAgentContent = ""
      · rw [processEvent_complete_skip ctx s hc]; simp [isCommitTrig, hc]
      · rw [processEvent_complete_flush ctx s hc]
        simp [isCommitTrig, hc, commit_aiMessageAdded]
  | done => simp [processEvent, isCommitTrig]
  | error m =>
      cases hf : s.aiMessageAdded with
      | true => rw [processEvent_error_added ctx s m hf]; simp [isCommitTrig, hf]
      | false => rw [processEvent_error_not_added ctx s m hf]; simp [isCommitTrig, hf]

/-- The flag after a whole stream: set exactly when the stream contains a
commit-triggering event (or it was set before). -/
lemma processEvents_flag (ctx : TurnCtx) :
    ∀ (es : List Event) (s : TurnSt),
      (processEvents ctx s es).aiMessageAdded
        = (s.aiMessageAdded || hasCommitTrig ctx s es)
  | [], s => by simp [processEvents, hasCommitTrig]
  | e :: es, s => by
      rw [processEvents, hasCommitTrig, processEvents_flag ctx es, processEvent_flag,
        Bool.or_assoc]

/-! ### Presence of the turn's ai message -/

lemma hasAi_of_fields (ctx : TurnCtx) (s s' : TurnSt)
    (hflag : s'.aiMessageAdded = s.aiMessageAdded) (hmsg : s'.messages = s.messages)
    (hs : HasAi ctx s) : HasAi ctx s' := by
  unfold HasAi at hs ⊢
  rw [hflag, hmsg]
  exact hs

/-- Committing puts the message carrying the current `completeResponse`
into the store, provided some ai message with the turn's id is present
whenever the flag is set. -/
lemma commit_mem (ctx : TurnCtx) (s : TurnSt) (hs : HasAi ctx s) :
    (⟨ctx.aiMsgId, s.completeResponse, Sender.ai⟩ : Message) ∈ (commit ctx s).messages := by
  unfold commit
  split
  · next hf =>
      obtain ⟨m, hm, hid, hsd⟩ := hs hf
      refine List.mem_map.mpr ⟨m, hm, ?_⟩
      rw [if_pos hid]
      cases m
      simp_all
  · simp

lemma hasAi_commit (ctx : TurnCtx) (s : TurnSt) (hs : HasAi ctx s) :
    HasAi ctx (commit ctx s) := fun _ =>
  ⟨⟨ctx.aiMsgId, s.completeResponse, Sender.ai⟩, commit_mem ctx s hs, rfl, rfl⟩

/-- Each event preserves `HasAi`. -/
lemma processEvent_hasAi (ctx : TurnCtx) (s : TurnSt) (e : Event) (hs : HasAi ctx s) :
    HasAi ctx (processEvent ctx s e) := by
  cases e with
  | connected sid =>
      rw [processEvent_connected_eq]
      cases hb : (!(truthy ctx.sessionAtStart) && truthy sid) with
      | true => rw [if_pos rfl]; exact hasAi_of_fields ctx s _ rfl rfl hs
      | false => rw [if_neg (by simp)]; exact hs
  | status m => exact hasAi_of_fields ctx s _ rfl rfl hs
  | content d => exact hasAi_of_fields ctx s _ rfl rfl hs
  | agent_complete a =>
      rw [processEvent_agent_complete_eq]
      exact hasAi_of_fields ctx _ _ rfl rfl
        (hasAi_commit ctx _ (hasAi_of_fields ctx s _ rfl rfl hs))
  | transition f t msg =>
      cases msg with
      | none => rw [processEvent_transition_none]; exact hs
      | some m =>
          by_cases hm : m = ""
          · rw [hm, processEvent_transition_empty]; exact hs
          · rw [processEvent_transition_commit ctx s f t m hm]
            exact hasAi_commit ctx _ (hasAi_of_fields ctx s _ rfl rfl hs)
  | complete =>
      by_cases hc : s.currentAgentContent = ""
      · rw [processEvent_complete_skip ctx s hc]
        exact hasAi_of_fields ctx s _ rfl rfl hs
      · rw [processEvent_complete_flush ctx s hc]
        exact hasAi_of_fields ctx _ _ rfl rfl
          (hasAi_commit ctx _ (hasAi_of_fields ctx s _ rfl rfl hs))
  | done => exact hasAi_of_fields ctx s _ rfl rfl hs
  | error m =>
      cases hf : s.aiMessageAdded with
      | true =>
          rw [processEvent_error_added ctx s m hf]
          exact hasAi_of_fields ctx s _ rfl rfl hs
      | false =>
          rw [processEvent_error_not_added ctx s m hf]
          intro hf2
          have hf3 : s.aiMessageAdded = true := hf2
          rw [hf] at hf3
          cases hf3

/-- `HasAi` holds after a whole stream. -/
lemma processEvents_hasAi (ctx : TurnCtx) :
    ∀ (es : List Event) (s : TurnSt), HasAi ctx s → HasAi ctx (processEvents ctx s es)
  | [], _, hs => hs
  | e :: es, s, hs =>
      processEvents_hasAi ctx es _ (processEvent_hasAi ctx s e hs)

lemma processLines_append (p : String → Option Event) (ctx : TurnCtx) :
    ∀ (l1 l2 : List String) (s : TurnSt),
      processLines p ctx s (l1 ++ l2) = processLines p ctx (processLines p ctx s l1) l2
  | [], _, _ => rfl
  | l :: ls, l2, s => by
      rw [List.cons_append, processLines, processLines]
      exact processLines_append p ctx ls l2 _

/-- Chunk-wise processing is line processing of the concatenated per-chunk
splits: the read loop keeps no state between chunks. -/
lemma processChunks_eq_join (p : String → Option Event) (ctx : TurnCtx) :
    ∀ (cs : List String) (s : TurnSt),
      processChunks p ctx s cs = processLines p ctx s (cs.map jsSplitNl).flatten
  | [], _ => rfl
  | c :: cs, s => by
      rw [List.map_cons, List.flatten_cons, processLines_append, processChunks,
        processChunks_eq_join p ctx cs]
      rfl

/-! ### Claims -/

/-- C1 (counterexample).  The claim says a completed turn with at least one
commit-triggering event gains exactly one new ai Message, never two.  On
the stream `error, agent_complete "x", done` — a completed turn whose
stream contains the commit-triggering `agent_complete` — the store, empty
at turn start, ends with TWO ai messages carrying the turn's id: the error
branch pushes a message without setting `aiMessageAdded`, so the commit in
`agent_complete` pushes a second one. -/
theorem C1_cex_error_then_commit_adds_two_messages :
    hasCommitTrig ctx0 (initTurn ctx0 [])
        [Event.error none, Event.agent_complete "x", Event.done] = true
    ∧ (finishStream (processEvents ctx0 (initTurn ctx0 [])
        [Event.error none, Event.agent_complete "x", Event.done])).messages
      = [⟨"ai1", "An error occurred during processing.", Sender.ai⟩,
         ⟨"ai1", "", Sender.ai⟩] := by
  constructor
  · decide
  · decide

/-- C1 (amended).  For every completed turn whose event stream contains at
least one commit-triggering event (`agent_complete`, transition with a
truthy message, or `complete` with buffered content), **and in which no
Error event is processed before the first commit**, the Conversation Store
gains exactly one new ai Message for the turn — the final store is the
initial store plus a single ai message whose id is `aiMessageId` (the first
commit appends it, every later commit only updates its text in place, as
established by the `Inv` preservation lemmas). -/
theorem C1_amended_exactly_one_ai_message (ctx : TurnCtx) (ms0 : List Message)
    (es : List Event) (h : Clean ctx ms0)
    (herr : errBeforeCommit ctx (initTurn ctx ms0) es = false)
    (htrig : hasCommitTrig ctx (initTurn ctx ms0) es = true) :
    (finishStream (processEvents ctx (initTurn ctx ms0) es)).messages
      = ms0 ++ [⟨ctx.aiMsgId,
          (processEvents ctx (initTurn ctx ms0) es).completeResponse, Sender.ai⟩] := by
  have hinv0 : Inv ctx ms0 (initTurn ctx ms0) := Or.inr ⟨rfl, rfl⟩
  have hinv := processEvents_inv ctx h es (initTurn ctx ms0) hinv0 herr
  have hflag : (processEvents ctx (initTurn ctx ms0) es).aiMessageAdded = true := by
    rw [processEvents_flag ctx es (initTurn ctx ms0),
      show (initTurn ctx ms0).aiMessageAdded = false from rfl, htrig]
    rfl
  rcases hinv with ⟨_, hm⟩ | ⟨hf, _⟩
  · exact hm
  · rw [hf] at hflag; cases hflag

/-- Witness for C1 (amended) on the concrete stream
`content "A", agent_complete "x", done`. -/
theorem C1_amended_witness :
    Clean ctx0 []
    ∧ errBeforeCommit ctx0 (initTurn ctx0 [])
        [Event.content "A", Event.agent_complete "x", Event.done] = false
    ∧ hasCommitTrig ctx0 (initTurn ctx0 [])
        [Event.content "A", Event.agent_complete "x", Event.done] = true
    ∧ (finishStream (processEvents ctx0 (initTurn ctx0 [])
        [Event.content "A", Event.agent_complete "x", Event.done])).messages
      = [] ++ [⟨ctx0.aiMsgId,
          (processEvents ctx0 (initTurn ctx0 [])
            [Event.content "A", Event.agent_complete "x", Event.done]).completeResponse,
          Sender.ai⟩] :=
  ⟨fun m hm => absurd hm (List.not_mem_nil m), by decide, by decide,
   C1_amended_exactly_one_ai_message ctx0 []
     [Event.content "A", Event.agent_complete "x", Event.done]
     (fun m hm => absurd hm (List.not_mem_nil m)) (by decide) (by decide)⟩

/-- C2 (counterexample).  The claim says that after the next
commit-triggering event the full accumulated text appears in the turn's ai
Message.  A transition with a truthy message IS commit-triggering, but its
branch in the source only appends its own `message` to `completeResponse`
and commits — it never flushes `currentAgentContent`.  On the stream
`content "X", transition{message:"note"}` the committed message text is
`note` alone: the withheld delta `X` is still sitting in the buffer and
appears nowhere in the store. -/
theorem C2_cex_transition_commit_skips_buffer :
    isCommitTrig (processEvent ctx0 (initTurn ctx0 []) (Event.content "X"))
        (Event.transition "a" "b" (some "note")) = true
    ∧ (processEvents ctx0 (initTurn ctx0 [])
        [Event.content "X", Event.transition "a" "b" (some "note")]).messages
      = [⟨"ai1", "note", Sender.ai⟩]
    ∧ (processEvents ctx0 (initTurn ctx0 [])
        [Event.content "X", Event.transition "a" "b" (some "note")]).currentAgentContent
      = "X" := by
  refine ⟨by decide, by decide, by decide⟩

/-- C2 (amended).  Content withholding: processing a Content event only
appends the delta to `currentAgentContent` — the store, typing flag,
session, committed text and flag are all untouched, so the store does not
reflect the delta.  After the next FLUSHING commit event — an
`agent_complete`, or a `complete` with a non-empty buffer — the full
accumulated text (committed text plus all buffered deltas) appears in the
turn's ai Message.  A transition commit, by contrast, leaves the buffered
delta in `currentAgentContent`, withheld until a later flushing commit. -/
theorem C2_amended_content_withheld_until_flush (ctx : TurnCtx) (ms0 : List Message)
    (pre : List Event) (d a : String) :
    (processEvent ctx (processEvents ctx (initTurn ctx ms0) pre) (Event.content d)).messages
      = (processEvents ctx (initTurn ctx ms0) pre).messages
    ∧ (processEvent ctx (processEvents ctx (initTurn ctx ms0) pre) (Event.content d)).isTyping
      = (processEvents ctx (initTurn ctx ms0) pre).isTyping
    ∧ (processEvent ctx (processEvents ctx (initTurn ctx ms0) pre) (Event.content d)).sessionId
      = (processEvents ctx (initTurn ctx ms0) pre).sessionId
    ∧ (processEvent ctx (processEvents ctx (initTurn ctx ms0) pre)
        (Event.content d)).completeResponse
      = (processEvents ctx (initTurn ctx ms0) pre).completeResponse
    ∧ (processEvent ctx (processEvents ctx (initTurn ctx ms0) pre)
        (Event.content d)).aiMessageAdded
      = (processEvents ctx (initTurn ctx ms0) pre).aiMessageAdded
    ∧ (processEvent ctx (processEvents ctx (initTurn ctx ms0) pre)
        (Event.content d)).currentAgentContent
      = (processEvents ctx (initTurn ctx ms0) pre).currentAgentContent ++ d
    ∧ (⟨ctx.aiMsgId,
          (processEvents ctx (initTurn ctx ms0) pre).completeResponse
            ++ ((processEvents ctx (initTurn ctx ms0) pre).currentAgentContent ++ d),
          Sender.ai⟩ : Message)
        ∈ (processEvent ctx
            (processEvent ctx (processEvents ctx (initTurn ctx ms0) pre) (Event.content d))
            (Event.agent_complete a)).messages
    ∧ ((processEvent ctx (processEvents ctx (initTurn ctx ms0) pre)
          (Event.content d)).currentAgentContent ≠ "" →
        (⟨ctx.aiMsgId,
            (processEvents ctx (initTurn ctx ms0) pre).completeResponse
              ++ ((processEvents ctx (initTurn ctx ms0) pre).currentAgentContent ++ d),
            Sender.ai⟩ : Message)
          ∈ (processEvent ctx
              (processEvent ctx (processEvents ctx (initTurn ctx ms0) pre) (Event.content d))
              Event.complete).messages)
    ∧ ∀ (f t m : String), m ≠ "" →
        (processEvent ctx
            (processEvent ctx (processEvents ctx (initTurn ctx ms0) pre) (Event.content d))
            (Event.transition f t (some m))).currentAgentContent
          = (processEvents ctx (initTurn ctx ms0) pre).currentAgentContent ++ d := by
  have hs0 : HasAi ctx (initTurn ctx ms0) := fun hf => nomatch hf
  have hs : HasAi ctx (processEvents ctx (initTurn ctx ms0) pre) :=
    processEvents_hasAi ctx pre _ hs0
  have hs2 : HasAi ctx
      (processEvent ctx (processEvents ctx (initTurn ctx ms0) pre) (Event.content d)) :=
    processEvent_hasAi ctx _ _ hs
  refine ⟨rfl, rfl, rfl, rfl, rfl, rfl, ?_, fun hne => ?_, fun f t m hm => ?_⟩
  · rw [processEvent_agent_complete_eq]
    exact commit_mem ctx _ (hasAi_of_fields ctx _ _ rfl rfl hs2)
  · rw [processEvent_complete_flush ctx _ hne]
    exact commit_mem ctx _ (hasAi_of_fields ctx _ _ rfl rfl hs2)
  · rw [processEvent_transition_commit ctx _ f t m hm]
    exact commit_currentAgentContent ctx _

/-- Witness for C2 (amended) at the empty prefix with delta `X`: the
complete-flush hypothesis (non-empty buffer) and the transition hypothesis
(truthy message `note`) are discharged concretely. -/
theorem C2_amended_witness :
    ((processEvent ctx0 (processEvents ctx0 (initTurn ctx0 []) [])
        (Event.content "X")).currentAgentContent ≠ "")
    ∧ (⟨ctx0.aiMsgId,
          (processEvents ctx0 (initTurn ctx0 []) []).completeResponse
            ++ ((processEvents ctx0 (initTurn ctx0 []) []).currentAgentContent ++ "X"),
          Sender.ai⟩ : Message)
        ∈ (processEvent ctx0
            (processEvent ctx0 (processEvents ctx0 (initTurn ctx0 []) [])
              (Event.content "X"))
            Event.complete).messages
    ∧ ("note" ≠ "")
    ∧ (processEvent ctx0
          (processEvent ctx0 (processEvents ctx0 (initTurn ctx0 []) []) (Event.content "X"))
          (Event.transition "a" "b" (some "note"))).currentAgentContent
        = (processEvents ctx0 (initTurn ctx0 []) []).currentAgentContent ++ "X" :=
  ⟨by decide,
   (C2_amended_content_withheld_until_flush ctx0 [] [] "X" "x").2.2.2.2.2.2.2.1
     (by decide),
   by decide,
   (C2_amended_content_withheld_until_flush ctx0 [] [] "X" "x").2.2.2.2.2.2.2.2
     "a" "b" "note" (by decide)⟩

/-- C3.  Multi-agent flush-and-commit.  First, the concrete Scenario B:
the stream `content "A", agent_complete, content "B", agent_complete, done`
from the initial turn state yields exactly one ai message with text `AB`.
Second, in general each `agent_complete` flushes `currentAgentContent` into
`completeResponse`, clears `currentAgentContent`, and commits (the store is
exactly the result of the commit step on the flushed state, and the flag is
set afterwards). -/
theorem C3_multi_agent_single_message :
    (finishStream (processEvents ctx0 (initTurn ctx0 [])
        [Event.content "A", Event.agent_complete "x", Event.content "B",
         Event.agent_complete "y", Event.done])).messages
      = [⟨"ai1", "AB", Sender.ai⟩]
    ∧ ∀ (ctx : TurnCtx) (s : TurnSt) (a : String),
        (processEvent ctx s (Event.agent_complete a)).completeResponse
            = s.completeResponse ++ s.currentAgentContent
        ∧ (processEvent ctx s (Event.agent_complete a)).currentAgentContent = ""
        ∧ (processEvent ctx s (Event.agent_complete a)).aiMessageAdded = true
        ∧ (processEvent ctx s (Event.agent_complete a)).messages
            = (commit ctx
                { s with completeResponse :=
                    s.completeResponse ++ s.currentAgentContent }).messages := by
  refine ⟨by decide, fun ctx s a => ⟨?_, rfl, ?_, rfl⟩⟩
  · exact commit_completeResponse ctx _
  · exact commit_aiMessageAdded ctx _

/-- C4.  Malformed-frame tolerance: a line that carries the `data: ` prefix
but whose payload fails to parse (or has no recognized type, both modelled
by the parse function returning `none`) is skipped without mutating any
state, and a stream with such a frame between two valid lines processes the
two valid lines exactly as it would without the bad frame. -/
theorem C4_malformed_frame_skipped (p : String → Option Event) (ctx : TurnCtx)
    (s : TurnSt) (l1 lbad l2 : String)
    (h1 : startsWithData lbad = true) (h2 : p (slice6 lbad) = none) :
    processLine p ctx s lbad = s
    ∧ processLines p ctx s [l1, lbad, l2] = processLines p ctx s [l1, l2] := by
  have hskip : ∀ t : TurnSt, processLine p ctx t lbad = t := by
    intro t
    unfold processLine
    rw [h1, if_pos rfl, h2]
  refine ⟨hskip s, ?_⟩
  show processLines p ctx (processLine p ctx (processLine p ctx s l1) lbad) [l2]
      = processLines p ctx (processLine p ctx s l1) [l2]
  rw [hskip]

/-- Witness for C4 at the parse function that rejects everything, with the
bad frame `data: x` between the line `data: a` and a blank line. -/
theorem C4_witness :
    startsWithData "data: x" = true
    ∧ (fun _ : String => (none : Option Event)) (slice6 "data: x") = none
    ∧ processLine (fun _ => none) ctx0 (initTurn ctx0 []) "data: x" = initTurn ctx0 []
    ∧ processLines (fun _ => none) ctx0 (initTurn ctx0 []) ["data: a", "data: x", ""]
        = processLines (fun _ => none) ctx0 (initTurn ctx0 []) ["data: a", ""] :=
  ⟨by decide, rfl,
   (C4_malformed_frame_skipped (fun _ => none) ctx0 (initTurn ctx0 [])
      "data: a" "data: x" "" (by decide) rfl).1,
   (C4_malformed_frame_skipped (fun _ => none) ctx0 (initTurn ctx0 [])
      "data: a" "data: x" "" (by decide) rfl).2⟩

/-- C5 (counterexample).  The claim says a trailing partial line is retained
and prepended to the next chunk, so a data frame split across two chunk
deliveries is still processed as one valid event.  In the source there is no
such buffer: on the chunks `["data: E", "2\n"]` — the single frame
`data: E2\n` split in two — the read loop processes nothing (the first piece
fails to parse, the second lacks the prefix), while the same frame in one
chunk commits a message, and the Transport Reader described by the spec
(`processChunksBuffered`) would also commit it. -/
theorem C5_cex_split_frame_dropped :
    (processChunks pdemo ctx0 (initTurn ctx0 []) ["data: E", "2\n"]).messages = []
    ∧ (processChunks pdemo ctx0 (initTurn ctx0 []) ["data: E2\n"]).messages
        = [⟨"ai1", "", Sender.ai⟩]
    ∧ (processChunksBuffered pdemo ctx0 (initTurn ctx0 []) "" ["data: E", "2\n"]).messages
        = [⟨"ai1", "", Sender.ai⟩]
    ∧ processChunks pdemo ctx0 (initTurn ctx0 []) ["data: E", "2\n"]
        ≠ processChunksBuffered pdemo ctx0 (initTurn ctx0 []) "" ["data: E", "2\n"] := by
  refine ⟨by decide, by decide, by decide, by decide⟩

/-- C5 (amended).  The reader splits each decoded chunk on line-feed and
processes every resulting piece immediately, including a trailing partial
piece; no remainder is carried over between chunks — processing the chunk
list is exactly processing the concatenation of the per-chunk splits. -/
theorem C5_amended_no_carry_between_chunks (p : String → Option Event)
    (ctx : TurnCtx) (cs : List String) (s : TurnSt) :
    processChunks p ctx s cs = processLines p ctx s (cs.map jsSplitNl).flatten :=
  processChunks_eq_join p ctx cs s

/-- C6.  Typing cleared on every exit path: a turn that ends at
end-of-stream has `isTyping = false` (whatever events preceded), a turn
that ends in the catch block (transport failure at any point) has
`isTyping = false`, and each of the Done, Complete and Error events leaves
`isTyping = false` immediately. -/
theorem C6_typing_cleared_on_every_exit (ctx : TurnCtx) (ms0 : List Message)
    (es : List Event) (s : TurnSt) (m : Option String) :
    (finishStream (processEvents ctx (initTurn ctx ms0) es)).isTyping = false
    ∧ (handleCatch ctx (processEvents ctx (initTurn ctx ms0) es)).isTyping = false
    ∧ (processEvent ctx s Event.done).isTyping = false
    ∧ (processEvent ctx s Event.complete).isTyping = false
    ∧ (processEvent ctx s (Event.error m)).isTyping = false :=
  ⟨rfl, rfl, rfl, rfl, rfl⟩

/-- C7.  Error event semantics: when no ai message has been inserted for
the turn (`aiMessageAdded` still false), an Error event appends exactly one
ai message whose text is the event's message, with the generic fallback
when the message is absent or empty (the JS `||` of the source); when the
turn has committed (`aiMessageAdded` true), the store is left completely
unchanged (so every message's text is unchanged); in both cases typing is
false afterwards. -/
theorem C7_error_event_semantics (ctx : TurnCtx) (s : TurnSt) (m : Option String) :
    (s.aiMessageAdded = false →
      (processEvent ctx s (Event.error m)).messages
        = s.messages ++ [⟨ctx.aiMsgId, errorText m, Sender.ai⟩])
    ∧ (s.aiMessageAdded = true →
      (processEvent ctx s (Event.error m)).messages = s.messages)
    ∧ (processEvent ctx s (Event.error m)).isTyping = false := by
  refine ⟨fun hf => ?_, fun hf => ?_, rfl⟩
  · rw [processEvent_error_not_added ctx s m hf]
  · rw [processEvent_error_added ctx s m hf]

/-- Witness for C7: a first error event (no message committed) appends the
message `boom`; after a commit, an error event leaves the store unchanged. -/
theorem C7_witness :
    ((initTurn ctx0 []).aiMessageAdded = false
      ∧ (processEvent ctx0 (initTurn ctx0 []) (Event.error (some "boom"))).messages
          = (initTurn ctx0 []).messages ++ [⟨ctx0.aiMsgId, errorText (some "boom"), Sender.ai⟩])
    ∧ ((processEvent ctx0 (initTurn ctx0 []) (Event.agent_complete "x")).aiMessageAdded = true
      ∧ (processEvent ctx0 (processEvent ctx0 (initTurn ctx0 []) (Event.agent_complete "x"))
          (Event.error (some "boom"))).messages
          = (processEvent ctx0 (initTurn ctx0 []) (Event.agent_complete "x")).messages)
    ∧ (processEvent ctx0 (initTurn ctx0 []) (Event.error (some "boom"))).isTyping = false :=
  ⟨⟨by decide, (C7_error_event_semantics ctx0 (initTurn ctx0 []) (some "boom")).1 (by decide)⟩,
   ⟨by decide,
    (C7_error_event_semantics ctx0 (processEvent ctx0 (initTurn ctx0 [])
      (Event.agent_complete "x")) (some "boom")).2.1 (by decide)⟩,
   (C7_error_event_semantics ctx0 (initTurn ctx0 []) (some "boom")).2.2⟩

/-- C8.  Transport-failure abort (the catch block, reached when the request
is rejected, the status is non-success, or the body has no reader): if no
ai message has been committed (`aiMessageAdded` false), exactly one ai
message with the generic error text is appended; if one has been committed
(store = initial store plus the committed message), that message is
replaced wholesale by the generic error message, discarding its text; and
typing is false afterwards. -/
theorem C8_transport_failure_abort (ctx : TurnCtx) (s : TurnSt)
    (ms0 : List Message) (t : String) :
    (s.aiMessageAdded = false →
      (handleCatch ctx s).messages
        = s.messages ++ [⟨ctx.aiMsgId, connectErrorText, Sender.ai⟩])
    ∧ (Clean ctx ms0 → s.aiMessageAdded = true →
        s.messages = ms0 ++ [⟨ctx.aiMsgId, t, Sender.ai⟩] →
        (handleCatch ctx s).messages
          = ms0 ++ [⟨ctx.aiMsgId, connectErrorText, Sender.ai⟩])
    ∧ (handleCatch ctx s).isTyping = false := by
  refine ⟨fun hf => by simp [handleCatch, hf], fun hc hf hm => ?_, rfl⟩
  simp only [handleCatch, hf, Bool.not_true, Bool.false_eq_true, if_false]
  rw [hm, List.map_append,
    map_update_clean ctx hc (fun _ => ⟨ctx.aiMsgId, connectErrorText, Sender.ai⟩)]
  simp

/-- Witness for C8: failure before any event appends the generic message;
failure after a commit overwrites the committed message. -/
theorem C8_witness :
    ((initTurn ctx0 []).aiMessageAdded = false
      ∧ (handleCatch ctx0 (initTurn ctx0 [])).messages
          = (initTurn ctx0 []).messages ++ [⟨ctx0.aiMsgId, connectErrorText, Sender.ai⟩])
    ∧ ((processEvent ctx0 (initTurn ctx0 []) (Event.agent_complete "x")).aiMessageAdded = true
      ∧ (handleCatch ctx0 (processEvent ctx0 (initTurn ctx0 [])
          (Event.agent_complete "x"))).messages
          = [] ++ [⟨ctx0.aiMsgId, connectErrorText, Sender.ai⟩])
    ∧ (handleCatch ctx0 (initTurn ctx0 [])).isTyping = false :=
  ⟨⟨by decide,
    (C8_transport_failure_abort ctx0 (initTurn ctx0 []) [] "").1 (by decide)⟩,
   ⟨by decide,
    (C8_transport_failure_abort ctx0
      (processEvent ctx0 (initTurn ctx0 []) (Event.agent_complete "x")) [] "").2.1
      (fun m hm => absurd hm (List.not_mem_nil m)) (by decide) (by decide)⟩,
   (C8_transport_failure_abort ctx0 (initTurn ctx0 []) [] "").2.2⟩

/-- C9 (counterexample).  The claim says the session identifier is set only
by the first Connected event supplying one, and a differing identifier
after one is bound does not replace it.  In a turn that starts with no
session, the binding check uses the closure-captured value, which stays
`null` for the whole turn: processing `connected s1` binds `s1`, and then
processing `connected s2` REPLACES the binding with `s2`. -/
theorem C9_cex_second_connected_rebinds :
    (processEvent ctx0 (initTurn ctx0 []) (Event.connected (some "s1"))).sessionId
      = some "s1"
    ∧ (processEvents ctx0 (initTurn ctx0 [])
        [Event.connected (some "s1"), Event.connected (some "s2")]).sessionId
      = some "s2"
    ∧ ("s1" : String) ≠ "s2" := by
  refine ⟨by decide, by decide, by decide⟩

/-- C9 (amended).  The binding check reads the session value captured at
turn start: if a truthy session identifier was bound when the turn started,
no Connected event changes the state at all (at-most-once across turns);
and rebinding is idempotent — processing the same Connected event twice
equals processing it once.  (Within a turn that started unbound, however,
every Connected event carrying a truthy identifier overwrites the session,
as the counterexample shows.) -/
theorem C9_amended_session_binding (ctx : TurnCtx) (s : TurnSt)
    (sid x : Option String) :
    (truthy ctx.sessionAtStart = true → processEvent ctx s (Event.connected sid) = s)
    ∧ processEvent ctx (processEvent ctx s (Event.connected x)) (Event.connected x)
        = processEvent ctx s (Event.connected x) := by
  constructor
  · intro h
    simp [processEvent_connected_eq, h]
  · simp only [processEvent_connected_eq]
    cases hb : (!(truthy ctx.sessionAtStart) && truthy x) with
    | true => rfl
    | false => rfl

/-- Witness for C9 (amended): with the session bound to `s0` at turn start,
a Connected event carrying `s9` changes nothing, and rebinding `s9` twice
from an unbound turn equals binding it once. -/
theorem C9_witness :
    truthy ctx1.sessionAtStart = true
    ∧ processEvent ctx1 (initTurn ctx1 []) (Event.connected (some "s9")) = initTurn ctx1 []
    ∧ processEvent ctx0 (processEvent ctx0 (initTurn ctx0 []) (Event.connected (some "s9")))
        (Event.connected (some "s9"))
      = processEvent ctx0 (initTurn ctx0 []) (Event.connected (some "s9")) :=
  ⟨by decide,
   (C9_amended_session_binding ctx1 (initTurn ctx1 []) (some "s9") (some "s9")).1 (by decide),
   (C9_amended_session_binding ctx0 (initTurn ctx0 []) (some "s9") (some "s9")).2⟩

/-- C10.  Empty-submission guard: when the input value trims to the empty
string (it is empty or consists only of whitespace), the send operation is
a complete no-op — the state is returned unchanged and no request is
issued.  The guard is identical in both App variants of the repository. -/
theorem C10_empty_submission_noop (now : String) (st : AppState)
    (h : jsTrim st.inputValue = "") :
    handleSendMessage now st = (st, none) := by
  simp [handleSendMessage, h]

/-- Witness for C10 on a whitespace-only input value. -/
theorem C10_witness :
    jsTrim " \t " = ""
    ∧ handleSendMessage "1" ⟨false, " \t ", [], false, none⟩
        = (⟨false, " \t ", [], false, none⟩, none) :=
  ⟨by decide, C10_empty_submission_noop "1" ⟨false, " \t ", [], false, none⟩ (by decide)⟩

end KPI2KVI
